import Mathlib

/-!
Verification of the OpenPawz agent engine core against its specification.

The Rust sources are shallowly embedded: pure functions become Lean
functions, SQLite-backed state becomes explicit list-of-rows state passing,
machine integers become Nat/Int with explicit wrapping where overflow can
occur, and fallible operations return Except.  Store-level functions whose
bodies are not part of the sources (only their callers and tests are) are
modelled from the specification and marked as such in their doc comments.
Floating-point scores are modelled by exact rationals and the transcendental
pieces (embedding similarity, exponential temporal decay, BM25 weights) are
abstracted as parameters, since the claims proved about them are
provenance/filtering properties that hold for every choice of score values.
-/

/-! ## engine/http.rs — retry, jitter, circuit breaker -/

/-- Embedding of `is_retryable_status` (engine/http.rs): transient HTTP
statuses that warrant a retry.  The Rust body is
`matches!(status, 429 | 500 | 502 | 503 | 504 | 529)`, i.e. exactly this
disjunction of equality tests. -/
def is_retryable_status (status : Nat) : Bool :=
  status == 429 || status == 500 || status == 502 ||
  status == 503 || status == 504 || status == 529

/-- Two's-complement wrap of an unbounded integer into the i64 range,
modelling Rust `as i64` casts and wrapping arithmetic. -/
def i64wrap (x : Int) : Int := (x + 2 ^ 63) % 2 ^ 64 - 2 ^ 63

/-- Embedding of `rand_jitter` (engine/http.rs): the sub-second nanosecond
reading reduced mod 1000.  The clock value `nanos` is left universally
quantified so theorems cover every value of the jitter randomness source. -/
def rand_jitter (nanos : Nat) : Int := ((nanos % 1000 : Nat) : Int)

/-- Embedding of `apply_jitter` (engine/http.rs): ±25% jitter around
`base_ms` with a floor of 100 ms.  `u64`/`i64` casts are modelled with
`i64wrap`. -/
def apply_jitter (nanos : Nat) (base_ms : Nat) : Nat :=
  let jitter_range : Int := i64wrap ((base_ms / 4 : Nat) : Int)
  if jitter_range = 0 then max base_ms 100
  else
    (max (i64wrap (i64wrap (base_ms : Int) +
      (rand_jitter nanos % (2 * jitter_range + 1) - jitter_range))) 100).toNat

/-- Embedding of `CircuitBreaker` (engine/http.rs): the mutable atomics
`consecutive_failures : u32` and `tripped_at : u64` (epoch seconds). -/
structure CircuitBreaker where
  consecutive_failures : Nat
  tripped_at : Nat
deriving Repr, DecidableEq

namespace CircuitBreaker

/-- Embedding of `CircuitBreaker::new`: both counters start at 0. -/
def new : CircuitBreaker := ⟨0, 0⟩

/-- Embedding of `CircuitBreaker::check`, with the current clock passed
explicitly.  The `now - tripped` u64 subtraction is Nat subtraction (the
clock is monotone, so no underflow occurs in the modelled runs). -/
def check (threshold cooldown_secs now : Nat) (cb : CircuitBreaker) :
    Except String Unit :=
  if cb.consecutive_failures < threshold then Except.ok ()
  else if now - cb.tripped_at < cooldown_secs then
    Except.error ("Circuit breaker open: " ++ toString cb.consecutive_failures
      ++ " consecutive failures, cooling down for "
      ++ toString (cooldown_secs - (now - cb.tripped_at)) ++ "s")
  else Except.ok ()

/-- Embedding of `CircuitBreaker::record_success`: resets both counters. -/
def record_success (_cb : CircuitBreaker) : CircuitBreaker := ⟨0, 0⟩

/-- Embedding of `CircuitBreaker::record_failure`: increments the u32
counter (wrapping, as atomic `fetch_add` does) and trips the breaker when
the threshold is reached. -/
def record_failure (threshold now : Nat) (cb : CircuitBreaker) :
    CircuitBreaker :=
  if threshold ≤ (cb.consecutive_failures + 1) % 2 ^ 32 then
    ⟨(cb.consecutive_failures + 1) % 2 ^ 32, now⟩
  else ⟨(cb.consecutive_failures + 1) % 2 ^ 32, cb.tripped_at⟩

end CircuitBreaker

/-! ## engine/channels/access.rs — allowlist / pairing access control -/

/-- Embedding of `PendingUser` (engine/channels/mod.rs). -/
structure PendingUser where
  user_id : String
  username : String
  display_name : String
  requested_at : String
deriving Repr, DecidableEq

/-- Embedding of `check_access` (engine/channels/access.rs).  The Rust
function mutates `pending_users` in place and returns a `Result`; here it
returns the result paired with the new pending list.  The wall-clock
`requested_at` string is passed in as `now`. -/
def check_access (dm_policy user_id username display_name now : String)
    (allowed_users : List String) (pending_users : List PendingUser) :
    Except String Unit × List PendingUser :=
  if dm_policy = "allowlist" then
    if allowed_users.contains user_id then (Except.ok (), pending_users)
    else (Except.error "⛔ You're not on the allowlist. Ask the Paw owner to add you.",
          pending_users)
  else if dm_policy = "pairing" then
    if allowed_users.contains user_id then (Except.ok (), pending_users)
    else
      (Except.error "🔒 Pairing request sent to Paw. Waiting for approval...",
       if pending_users.any (fun p => p.user_id == user_id) then pending_users
       else pending_users ++ [⟨user_id, username, display_name, now⟩])
  else (Except.ok (), pending_users)

/-- Embedding of the state change performed by `approve_user_generic`
(engine/channels/access.rs) on the channel config's `allowed_users` and
`pending_users` fields: push the id into `allowed_users` unless already
present, and retain only pending entries with a different `user_id`.
The JSON load/store plumbing around it is not modelled. -/
def approve_user (allowed_users : List String) (pending_users : List PendingUser)
    (user_id : String) : List String × List PendingUser :=
  (if allowed_users.contains user_id then allowed_users
   else allowed_users ++ [user_id],
   pending_users.filter (fun p => p.user_id != user_id))

/-! ## Theorems for claims C10, C7, C6, C5, C2 -/

/-- C10: `is_retryable_status` returns true for exactly 429, 500, 502, 503,
504 and 529, and false for every other status (in particular 200, 400, 401,
403, 404). -/
theorem is_retryable_status_iff (s : Nat) :
    is_retryable_status s = true ↔
      s = 429 ∨ s = 500 ∨ s = 502 ∨ s = 503 ∨ s = 504 ∨ s = 529 := by
  simp [is_retryable_status]
  tauto

theorem i64wrap_eq_self (x : Int) (h1 : -(2 ^ 63) ≤ x) (h2 : x < 2 ^ 63) :
    i64wrap x = x := by
  unfold i64wrap
  have h : (x + 2 ^ 63) % 2 ^ 64 = x + 2 ^ 63 :=
    Int.emod_eq_of_lt (by omega) (by omega)
  omega

/-- C7 (counterexample): at `base_ms = 1` the result is the 100 ms floor,
which is strictly above `1.3 · base_ms` (the claimed interval is empty
there), for the concrete jitter source value 0. -/
theorem apply_jitter_counterexample :
    ¬ (max 1000 (7 * 1) ≤ 10 * apply_jitter 0 1 ∧
       10 * apply_jitter 0 1 ≤ 13 * 1) := by
  decide

/-- C7 (amended): for every jitter-source value and every `base_ms`
representable without i64 sign overflow, `apply_jitter base_ms` lies in
`[max(100, 0.7·base_ms), max(100, 1.3·base_ms)]` — the 100 ms floor also
caps the claimed upper bound from below.  Stated over integers by scaling
both sides by 10. -/
theorem apply_jitter_bounds (nanos base_ms : Nat) (h : base_ms < 2 ^ 63) :
    max 1000 (7 * base_ms) ≤ 10 * apply_jitter nanos base_ms ∧
    10 * apply_jitter nanos base_ms ≤ max 1000 (13 * base_ms) := by
  unfold apply_jitter
  have hq : ((base_ms / 4 : Nat) : Int) < 2 ^ 63 := by
    have := Nat.div_le_self base_ms 4
    omega
  rw [i64wrap_eq_self _ (by omega) hq]
  by_cases h0 : ((base_ms / 4 : Nat) : Int) = 0
  · rw [if_pos h0]
    have hb : base_ms ≤ 3 := by omega
    omega
  · rw [if_neg h0]
    have hjr : (1 : Int) ≤ ((base_ms / 4 : Nat) : Int) := by omega
    set jr : Int := ((base_ms / 4 : Nat) : Int) with hjrdef
    have hm : (0 : Int) < 2 * jr + 1 := by omega
    set e : Int := rand_jitter nanos % (2 * jr + 1) with hedef
    have he0 : 0 ≤ e := Int.emod_nonneg _ (by omega)
    have heM : e < 2 * jr + 1 := Int.emod_lt_of_pos _ hm
    have hr0 : (0 : Int) ≤ rand_jitter nanos := by
      unfold rand_jitter; omega
    have hr999 : rand_jitter nanos ≤ 999 := by
      unfold rand_jitter
      have : nanos % 1000 < 1000 := Nat.mod_lt _ (by omega)
      omega
    have he999 : e ≤ 999 := by
      rcases lt_or_le (rand_jitter nanos) (2 * jr + 1) with hlt | hle
      · rw [hedef, Int.emod_eq_of_lt hr0 hlt]; exact hr999
      · omega
    rw [i64wrap_eq_self (base_ms : Int) (by omega) (by omega)]
    rw [i64wrap_eq_self ((base_ms : Int) + (e - jr)) (by omega) (by omega)]
    omega

theorem apply_jitter_bounds_witness :
    max 1000 (7 * 1000) ≤ 10 * apply_jitter 0 1000 ∧
    10 * apply_jitter 0 1000 ≤ max 1000 (13 * 1000) :=
  apply_jitter_bounds 0 1000 (by decide)

theorem cb_iterate (N t k : Nat) (hN : 1 ≤ N) (hN32 : N < 2 ^ 32) (hk : k ≤ N) :
    (CircuitBreaker.record_failure N t)^[k] CircuitBreaker.new =
      ⟨k, if N ≤ k then t else 0⟩ := by
  induction k with
  | zero =>
    rw [Function.iterate_zero_apply, if_neg (by omega)]
    rfl
  | succ k ih =>
    rw [Function.iterate_succ_apply', ih (by omega), if_neg (by omega : ¬ N ≤ k)]
    unfold CircuitBreaker.record_failure
    simp only
    rw [Nat.mod_eq_of_lt (by omega)]
    by_cases hNk : N ≤ k + 1
    · rw [if_pos hNk, if_pos hNk]
    · rw [if_neg hNk, if_neg hNk]

/-- C6: a breaker with threshold `N ≥ 1` and cooldown `c`, starting from the
initial state, rejects `check` after `N` consecutive `record_failure` calls
(last at time `t`) when checked at any `t'` inside the cooldown window; and
after any `record_success` call the failure counter is reset so `check`
returns Ok at any time. -/
theorem circuit_breaker_spec (N c t t' t'' : Nat) (cb : CircuitBreaker)
    (hN : 1 ≤ N) (hN32 : N < 2 ^ 32) (ht : t ≤ t') (hwin : t' - t < c) :
    ((CircuitBreaker.check N c t'
        ((CircuitBreaker.record_failure N t)^[N] CircuitBreaker.new)).isOk = false)
    ∧ (CircuitBreaker.check N c t'' (CircuitBreaker.record_success cb)).isOk = true := by
  constructor
  · rw [cb_iterate N t N hN hN32 le_rfl, if_pos le_rfl]
    unfold CircuitBreaker.check
    rw [if_neg (by simp), if_pos (by simpa using hwin)]
    rfl
  · unfold CircuitBreaker.check CircuitBreaker.record_success
    rw [if_pos (by simpa using hN)]
    rfl

theorem circuit_breaker_spec_witness :
    ((CircuitBreaker.check 3 60 45
        ((CircuitBreaker.record_failure 3 10)^[3] CircuitBreaker.new)).isOk = false)
    ∧ (CircuitBreaker.check 3 60 0 (CircuitBreaker.record_success ⟨7, 5⟩)).isOk = true :=
  circuit_breaker_spec 3 60 10 45 0 ⟨7, 5⟩ (by decide) (by decide) (by decide) (by decide)

theorem check_access_pairing_denied (uid un dn ts : String) (allowed : List String)
    (pending : List PendingUser) (hA : uid ∉ allowed) :
    check_access "pairing" uid un dn ts allowed pending =
      (Except.error "🔒 Pairing request sent to Paw. Waiting for approval...",
       if pending.any (fun p => p.user_id == uid) then pending
       else pending ++ [⟨uid, un, dn, ts⟩]) := by
  unfold check_access
  have hc : allowed.contains uid = false := by simpa using hA
  rw [if_neg (show ("pairing" : String) ≠ "allowlist" by decide), if_pos rfl,
    if_neg (by simpa using hA)]

/-- C2: under `dm_policy = "pairing"`, a user not in `allowed_users` and not
yet pending is denied and appears exactly once in `pending_users`; a repeat
call is denied again and leaves `pending_users` unchanged; a subsequent
`approve_user` puts the id in `allowed_users` exactly once and removes every
pending entry with that id. -/
theorem pairing_flow (uid un dn ts un2 dn2 ts2 : String)
    (allowed : List String) (pending : List PendingUser)
    (hA : uid ∉ allowed) (hP : ∀ p ∈ pending, p.user_id ≠ uid) :
    (check_access "pairing" uid un dn ts allowed pending).1.isOk = false
    ∧ ((check_access "pairing" uid un dn ts allowed pending).2.countP
        (fun p => p.user_id == uid) = 1)
    ∧ check_access "pairing" uid un2 dn2 ts2 allowed
        (check_access "pairing" uid un dn ts allowed pending).2
      = (Except.error "🔒 Pairing request sent to Paw. Waiting for approval...",
         (check_access "pairing" uid un dn ts allowed pending).2)
    ∧ uid ∈ (approve_user allowed
        (check_access "pairing" uid un dn ts allowed pending).2 uid).1
    ∧ ((approve_user allowed
        (check_access "pairing" uid un dn ts allowed pending).2 uid).1.count uid = 1)
    ∧ ((approve_user allowed
        (check_access "pairing" uid un dn ts allowed pending).2 uid).2.countP
        (fun p => p.user_id == uid) = 0) := by
  have hany : pending.any (fun p => p.user_id == uid) = false := by
    simp only [List.any_eq_false]
    intro p hp
    simpa using hP p hp
  rw [check_access_pairing_denied uid un dn ts allowed pending hA]
  simp only [hany, Bool.false_eq_true, if_false]
  have hP1 : (pending ++ [(⟨uid, un, dn, ts⟩ : PendingUser)]).countP
      (fun p => p.user_id == uid) = 1 := by
    rw [List.countP_append]
    have h0 : pending.countP (fun p => p.user_id == uid) = 0 := by
      rw [List.countP_eq_zero]
      intro p hp
      simpa using hP p hp
    simp [h0, List.countP_cons]
  refine ⟨rfl, hP1, ?_, ?_, ?_, ?_⟩
  · rw [check_access_pairing_denied uid un2 dn2 ts2 allowed _ hA]
    have : (pending ++ [(⟨uid, un, dn, ts⟩ : PendingUser)]).any
        (fun p => p.user_id == uid) = true := by
      simp [List.any_append]
    rw [if_pos this]
  · unfold approve_user
    have hc : allowed.contains uid = false := by simpa using hA
    rw [if_neg (by simpa using hA)]
    simp
  · unfold approve_user
    have hc : allowed.contains uid = false := by simpa using hA
    rw [if_neg (by simpa using hA)]
    rw [List.count_append]
    have h0 : allowed.count uid = 0 := List.count_eq_zero.mpr hA
    simp [h0]
  · unfold approve_user
    simp only
    rw [List.countP_eq_zero]
    intro p hp
    rw [List.mem_filter] at hp
    simpa using hp.2

theorem pairing_flow_witness :
    (check_access "pairing" "u1" "alice" "Alice" "t0" [] []).1.isOk = false
    ∧ ((check_access "pairing" "u1" "alice" "Alice" "t0" [] []).2.countP
        (fun p => p.user_id == "u1") = 1)
    ∧ check_access "pairing" "u1" "al2" "A2" "t1" []
        (check_access "pairing" "u1" "alice" "Alice" "t0" [] []).2
      = (Except.error "🔒 Pairing request sent to Paw. Waiting for approval...",
         (check_access "pairing" "u1" "alice" "Alice" "t0" [] []).2)
    ∧ "u1" ∈ (approve_user []
        (check_access "pairing" "u1" "alice" "Alice" "t0" [] []).2 "u1").1
    ∧ ((approve_user []
        (check_access "pairing" "u1" "alice" "Alice" "t0" [] []).2 "u1").1.count "u1" = 1)
    ∧ ((approve_user []
        (check_access "pairing" "u1" "alice" "Alice" "t0" [] []).2 "u1").2.countP
        (fun p => p.user_id == "u1") = 0) :=
  pairing_flow "u1" "alice" "Alice" "t0" "al2" "A2" "t1" [] [] (by simp) (by simp)

/-- C5: every `dm_policy` other than "allowlist" and "pairing" (not just
"open") falls through the match's catch-all arm: `check_access` returns Ok
for every user and leaves `pending_users` unchanged. -/
theorem check_access_unknown_policy (policy uid un dn ts : String)
    (allowed : List String) (pending : List PendingUser)
    (h1 : policy ≠ "allowlist") (h2 : policy ≠ "pairing") :
    check_access policy uid un dn ts allowed pending = (Except.ok (), pending) := by
  unfold check_access
  rw [if_neg h1, if_neg h2]

theorem check_access_unknown_policy_witness :
    check_access "opeen" "u1" "alice" "Alice" "t0" [] [⟨"u2", "b", "B", "t"⟩]
      = (Except.ok (), [⟨"u2", "b", "B", "t"⟩]) :=
  check_access_unknown_policy "opeen" "u1" "alice" "Alice" "t0" [] [⟨"u2", "b", "B", "t"⟩]
    (by decide) (by decide)

/-! ## engine/sessions.rs — session store (sessions, messages) -/

/-- Embedding of the `sessions` table row (engine/sessions.rs schema). -/
structure Session where
  id : String
  label : Option String
  model : String
  system_prompt : Option String
  created_at : String
  updated_at : String
  message_count : Nat
deriving Repr, DecidableEq

/-- Embedding of `StoredMessage` (engine/types.rs / `messages` table row). -/
structure StoredMessage where
  id : String
  session_id : String
  role : String
  content : String
  tool_calls_json : Option String
  tool_call_id : Option String
  name : Option String
  created_at : String
deriving Repr, DecidableEq

/-- Embedding of the `SessionStore` database state: the two tables as row
lists in insertion order. -/
structure SessionStore where
  sessions : List Session
  messages : List StoredMessage
deriving Repr, DecidableEq

namespace SessionStore

/-- The empty database produced by `SessionStore::open` on a fresh file. -/
def openEmpty : SessionStore := ⟨[], []⟩

/-- Embedding of `SessionStore::create_session`: `INSERT INTO sessions`
fails on a duplicate primary key; `message_count` starts at 0.  SQL
`datetime('now')` defaults are passed in as `now`. -/
def create_session (st : SessionStore) (id model : String)
    (system_prompt : Option String) (now : String) :
    Except String SessionStore :=
  if st.sessions.any (fun s => s.id == id) then
    Except.error "Failed to create session: UNIQUE constraint"
  else
    Except.ok { st with sessions :=
      st.sessions ++ [⟨id, none, model, system_prompt, now, now, 0⟩] }

/-- Embedding of `SessionStore::add_message`: `INSERT INTO messages` (fails
on duplicate primary key; the schema's FOREIGN KEY is declared but SQLite
foreign-key enforcement is not enabled by the store, so no session-existence
check happens), then `UPDATE sessions SET message_count = (SELECT COUNT(*)
FROM messages WHERE session_id = ?1), updated_at = datetime('now'))` —
the count is re-derived from the messages table, never incremented. -/
def add_message (st : SessionStore) (msg : StoredMessage) (now : String) :
    Except String SessionStore :=
  if st.messages.any (fun m => m.id == msg.id) then
    Except.error "Insert message error: UNIQUE constraint"
  else
    let msgs := st.messages ++ [msg]
    Except.ok
      { sessions := st.sessions.map (fun s =>
          if s.id == msg.session_id then
            { s with
              message_count :=
                (msgs.filter (fun m => m.session_id == s.id)).length,
              updated_at := now }
          else s),
        messages := msgs }

/-- Embedding of `SessionStore::delete_session`: `DELETE FROM messages WHERE
session_id = ?1` then `DELETE FROM sessions WHERE id = ?1`. -/
def delete_session (st : SessionStore) (id : String) : SessionStore :=
  { sessions := st.sessions.filter (fun s => s.id != id),
    messages := st.messages.filter (fun m => m.session_id != id) }

end SessionStore

/-- One store operation of the claim's sequence vocabulary. -/
inductive StoreOp where
  | create (id model : String) (system_prompt : Option String) (now : String)
  | add (msg : StoredMessage) (now : String)
  | del (id : String)
deriving Repr, DecidableEq

/-- Run one operation; a failed `INSERT` leaves the database unchanged (the
caller receives the error and no `UPDATE` runs). -/
def runOp (st : SessionStore) : StoreOp → SessionStore
  | .create id model sp now => ((st.create_session id model sp now).toOption).getD st
  | .add msg now => ((st.add_message msg now).toOption).getD st
  | .del id => st.delete_session id

/-- Run a sequence of store operations left to right. -/
def runOps (st : SessionStore) (ops : List StoreOp) : SessionStore :=
  ops.foldl runOp st

/-- The claimed invariant: every session row's `message_count` equals the
number of message rows carrying its id. -/
def countInvariant (st : SessionStore) : Prop :=
  ∀ s ∈ st.sessions,
    s.message_count = (st.messages.filter (fun m => m.session_id == s.id)).length

instance (st : SessionStore) : Decidable (countInvariant st) := by
  unfold countInvariant
  infer_instance

/-- Auxiliary invariant: no orphan messages — every message row's session
exists.  This is what the schema's (declared but unenforced) FOREIGN KEY
would guarantee. -/
def orphanFree (st : SessionStore) : Prop :=
  ∀ m ∈ st.messages, ∃ s ∈ st.sessions, s.id = m.session_id

instance (st : SessionStore) : Decidable (orphanFree st) := by
  unfold orphanFree
  infer_instance

/-- The side condition of the amended claim: along the run, every
`add_message` targets a session that exists at that point. -/
def addsTargetExisting (st : SessionStore) : List StoreOp → Bool
  | [] => true
  | op :: rest =>
    (match op with
     | .add msg _ => st.sessions.any (fun s => s.id == msg.session_id)
     | _ => true) && addsTargetExisting (runOp st op) rest

theorem runOp_preserves (st : SessionStore) (op : StoreOp)
    (hinv : countInvariant st) (horph : orphanFree st)
    (hok : match op with
           | .add msg _ => st.sessions.any (fun s => s.id == msg.session_id) = true
           | _ => True) :
    countInvariant (runOp st op) ∧ orphanFree (runOp st op) := by
  cases op with
  | create id model sp now =>
    simp only [runOp, SessionStore.create_session]
    by_cases hdup : st.sessions.any (fun s => s.id == id) = true
    · rw [if_pos hdup]
      exact ⟨hinv, horph⟩
    · rw [if_neg hdup]
      simp only [Except.toOption, Option.getD]
      constructor
      · intro s hs
        rw [List.mem_append] at hs
        rcases hs with hs | hs
        · exact hinv s hs
        · rw [List.mem_singleton] at hs
          subst hs
          simp only
          symm
          rw [List.length_eq_zero, List.filter_eq_nil_iff]
          intro m hm hbeq
          apply hdup
          obtain ⟨s', hs', hid⟩ := horph m hm
          rw [List.any_eq_true]
          refine ⟨s', hs', ?_⟩
          rw [beq_iff_eq] at hbeq ⊢
          rw [hid, hbeq]
      · intro m hm
        obtain ⟨s', hs', hid⟩ := horph m hm
        exact ⟨s', List.mem_append_left _ hs', hid⟩
  | add msg now =>
    have hok' : st.sessions.any (fun s => s.id == msg.session_id) = true := hok
    simp only [runOp, SessionStore.add_message]
    by_cases hdup : st.messages.any (fun m => m.id == msg.id) = true
    · rw [if_pos hdup]
      exact ⟨hinv, horph⟩
    · rw [if_neg hdup]
      simp only [Except.toOption, Option.getD]
      constructor
      · intro s hs
        rw [List.mem_map] at hs
        obtain ⟨s0, hs0, rfl⟩ := hs
        by_cases hsid : (s0.id == msg.session_id) = true
        · rw [if_pos hsid]
        · rw [if_neg hsid]
          rw [List.filter_append]
          have hmsg : (msg.session_id == s0.id) = false := by
            rw [beq_eq_false_iff_ne]
            rw [beq_iff_eq] at hsid
            intro h
            exact hsid (by rw [h])
          simp only [List.filter_cons, hmsg, List.filter_nil,
            Bool.false_eq_true, if_false, List.append_nil]
          exact hinv s0 hs0
      · intro m hm
        rw [List.mem_append] at hm
        have idkeep : ∀ s0 ∈ st.sessions, ∃ s' ∈ st.sessions.map (fun s =>
            if s.id == msg.session_id then
              { s with
                message_count :=
                  ((st.messages ++ [msg]).filter
                    (fun m => m.session_id == s.id)).length,
                updated_at := now }
            else s), s'.id = s0.id := by
          intro s0 hs0
          refine ⟨_, List.mem_map_of_mem _ hs0, ?_⟩
          by_cases hsid : (s0.id == msg.session_id) = true
          · rw [if_pos hsid]
          · rw [if_neg hsid]
        rcases hm with hm | hm
        · obtain ⟨s', hs', hid⟩ := horph m hm
          obtain ⟨s'', hs'', hid2⟩ := idkeep s' hs'
          exact ⟨s'', hs'', by rw [hid2, hid]⟩
        · rw [List.mem_singleton] at hm
          subst hm
          rw [List.any_eq_true] at hok'
          obtain ⟨s', hs', hid⟩ := hok'
          rw [beq_iff_eq] at hid
          obtain ⟨s'', hs'', hid2⟩ := idkeep s' hs'
          exact ⟨s'', hs'', by rw [hid2, hid]⟩
  | del id =>
    simp only [runOp, SessionStore.delete_session]
    constructor
    · intro s hs
      rw [List.mem_filter] at hs
      obtain ⟨hs, hneq⟩ := hs
      rw [hinv s hs]
      rw [List.filter_filter]
      congr 1
      apply List.filter_congr
      intro m _
      cases hb : (m.session_id == s.id) with
      | false => simp [hb]
      | true =>
        rw [beq_iff_eq] at hb
        simp only [hb, Bool.and_true, Bool.true_and, Bool.and_false]
        simpa using hneq
    · intro m hm
      rw [List.mem_filter] at hm
      obtain ⟨hm, hne⟩ := hm
      obtain ⟨s', hs', hid⟩ := horph m hm
      refine ⟨s', List.mem_filter.mpr ⟨hs', ?_⟩, hid⟩
      rw [hid]
      exact hne

theorem runOps_preserve (ops : List StoreOp) : ∀ st : SessionStore,
    countInvariant st → orphanFree st → addsTargetExisting st ops = true →
    countInvariant (runOps st ops) ∧ orphanFree (runOps st ops) := by
  induction ops with
  | nil => exact fun st h1 h2 _ => ⟨h1, h2⟩
  | cons op rest ih =>
    intro st h1 h2 h3
    unfold addsTargetExisting at h3
    rw [Bool.and_eq_true] at h3
    have step : countInvariant (runOp st op) ∧ orphanFree (runOp st op) := by
      cases op with
      | create a b c d => exact runOp_preserves st (.create a b c d) h1 h2 trivial
      | add msg mnow =>
        refine runOp_preserves st (.add msg mnow) h1 h2 ?_
        simpa using h3.1
      | del a => exact runOp_preserves st (.del a) h1 h2 trivial
    unfold runOps
    rw [List.foldl_cons]
    exact ih (runOp st op) step.1 step.2 h3.2

/-- C8 (counterexample): the store never turns SQLite foreign-key
enforcement on, so `add_message` for a not-yet-created session succeeds and
orphans a row; a later `create_session` of that id starts at
`message_count = 0` while one message row already carries the session's id.
The claim is false for that operation sequence. -/
theorem message_count_counterexample :
    ¬ countInvariant (runOps SessionStore.openEmpty
      [.add ⟨"m1", "s1", "user", "hi", none, none, none, "t0"⟩ "t0",
       .create "s1" "gpt-x" none "t1"]) := by
  decide

/-- C8 (amended): for every starting database satisfying the invariant and
free of orphan messages (the empty database in particular), and every
sequence of `create_session` / `add_message` / `delete_session` operations
in which each `add_message` targets a session existing at that point (what
the schema's declared FOREIGN KEY intends), every session row's
`message_count` equals the number of message rows with its id —
`add_message` re-derives the count from the messages table with a
`SELECT COUNT(*)` rather than incrementing. -/
theorem message_count_invariant (st : SessionStore) (ops : List StoreOp)
    (h1 : countInvariant st) (h2 : orphanFree st)
    (h3 : addsTargetExisting st ops = true) :
    countInvariant (runOps st ops) :=
  (runOps_preserve ops st h1 h2 h3).1

theorem message_count_invariant_witness :
    countInvariant (runOps SessionStore.openEmpty
      [.create "s1" "m1" none "t0",
       .add ⟨"a", "s1", "user", "hi", none, none, none, "t1"⟩ "t1",
       .add ⟨"b", "s1", "assistant", "yo", none, none, none, "t2"⟩ "t2",
       .create "s2" "m2" none "t3",
       .del "s1"]) :=
  message_count_invariant SessionStore.openEmpty
    [.create "s1" "m1" none "t0",
     .add ⟨"a", "s1", "user", "hi", none, none, none, "t1"⟩ "t1",
     .add ⟨"b", "s1", "assistant", "yo", none, none, none, "t2"⟩ "t2",
     .create "s2" "m2" none "t3",
     .del "s1"]
    (by decide) (by decide) (by decide)

/-! ## engine/memory.rs — hybrid memory search and write path -/

/-- Modelled from the spec: the `Memory` row of the data model
(`{id, content, category, importance, embedding?: bytes, agent_id?,
created_at}`; the row struct itself lives in engine/types.rs, which is not
among the sources), plus the transient search `score`.  f64 scores are
modelled by exact rationals. -/
structure Memory where
  id : String
  content : String
  category : String
  importance : Nat
  embedding : Option (List Nat)
  agent_id : Option String
  created_at : String
  score : Option ℚ
deriving Repr, DecidableEq

instance : Inhabited Memory := ⟨⟨"", "", "", 0, none, none, "", none⟩⟩

/-- The agent-scope row filter of the store-level searches (spec §4.F:
"filtered to `agent_scope` or null-agent when a scope is given"). -/
def agentScopeOk (agent_id : Option String) (m : Memory) : Bool :=
  match agent_id with
  | none => true
  | some a => m.agent_id == some a || m.agent_id == none

/-- Structural tokenizer over the character list: maximal runs of
non-separator characters, dropping empty pieces (what both FTS5 word
tokenization and Rust `split_whitespace` do). -/
def tokenizeAux (p : Char → Bool) : List Char → List Char → List String
  | [], cur => if cur.isEmpty then [] else [String.mk cur.reverse]
  | c :: rest, cur =>
    if p c then
      if cur.isEmpty then tokenizeAux p rest []
      else String.mk cur.reverse :: tokenizeAux p rest (List.nil)
    else tokenizeAux p rest (c :: cur)

/-- Character-wise ASCII lowering (Rust `str::to_lowercase`, restricted to
the simple one-to-one case). -/
def lowerStr (s : String) : String := String.mk (s.toList.map Char.toLower)

/-- Word tokens of a string for the FTS5 full-text match model: maximal
alphanumeric runs, lowercased. -/
def ftsTokens (s : String) : List String :=
  tokenizeAux (fun c => !c.isAlphanum) (s.toList.map Char.toLower) []

/-- Modelled from the spec: `SessionStore::search_memories_bm25` (store
level, not in the sources) — FTS5 full-text match (every query token occurs
as a word token of the content), filtered to the agent scope or null agent,
scored by the engine's native BM25 ranking (abstracted as the parameter
`bm25score`), up to `fetch_limit` rows. -/
def search_memories_bm25 (db : List Memory) (bm25score : Memory → ℚ)
    (query : String) (fetch_limit : Nat) (agent_id : Option String) :
    List Memory :=
  ((db.filter (fun m =>
      (ftsTokens query).all (fun t => (ftsTokens m.content).contains t)
      && agentScopeOk agent_id m)).map
    (fun m => { m with score := some (bm25score m) })).take fetch_limit

/-- Modelled from the spec: `SessionStore::search_memories_by_embedding`
(store level, not in the sources) — rows having an embedding whose cosine
similarity to the query vector is ≥ `threshold` (the similarity is
abstracted as the parameter `sim`), filtered to the agent scope or null
agent, up to `fetch_limit` rows. -/
def search_memories_by_embedding (db : List Memory) (sim : Memory → ℚ)
    (fetch_limit : Nat) (threshold : ℚ) (agent_id : Option String) :
    List Memory :=
  ((db.filter (fun m =>
      m.embedding.isSome && decide (threshold ≤ sim m)
      && agentScopeOk agent_id m)).map
    (fun m => { m with score := some (sim m) })).take fetch_limit

/-- Substring test over strings (Rust `str::contains` / SQL `LIKE
'%needle%'`). -/
def strContainsSub (hay needle : String) : Bool :=
  hay.toList.tails.any (fun t => needle.toList.isPrefixOf t)

/-- Modelled from the spec: `SessionStore::search_memories_keyword` (store
level, not in the sources) — the final fallback substring `LIKE` scan (spec
§4.F step 6).  Its signature at the call site takes only `(query, limit)`:
no agent scope reaches it, so it cannot filter by scope.  SQLite `LIKE` is
ASCII case-insensitive, hence the lowering. -/
def search_memories_keyword (db : List Memory) (query : String) (limit : Nat) :
    List Memory :=
  (db.filter (fun m => strContainsSub (lowerStr m.content) (lowerStr query))).take limit

/-- The value Rust spells `f64::MAX`, used as the fold seed for the BM25
minimum. -/
def f64MAX : ℚ := 2 ^ 1024 - 2 ^ 971

/-- Entries of the id-keyed score map of `merge_search_results`:
`(bm25_score?, vector_score?, memory)`. -/
abbrev MergeEntry : Type := Option ℚ × Option ℚ × Memory

/-- HashMap insert-or-overwrite, modelled on an association list in
insertion order (the Rust `HashMap::into_values` iteration order is
unspecified; the properties proved are order-independent). -/
def mapInsert (acc : List (String × MergeEntry)) (k : String) (v : MergeEntry) :
    List (String × MergeEntry) :=
  if acc.any (fun p => p.1 == k) then
    acc.map (fun p => if p.1 == k then (k, v) else p)
  else acc ++ [(k, v)]

/-- The `entry.1 = mem.score` update of `merge_search_results` for ids
already present. -/
def mapUpdateVec (acc : List (String × MergeEntry)) (k : String) (v : Option ℚ) :
    List (String × MergeEntry) :=
  acc.map (fun p => if p.1 == k then (p.1, (p.2.1, v, p.2.2.2)) else p)

/-- Embedding of `merge_search_results` (engine/memory.rs): min-max
normalization of BM25 scores, then weighted sum with the vector scores
(missing branch contributes 0 via `unwrap_or(0.0)`). -/
def merge_search_results (bm25 vector : List Memory)
    (bm25_weight vector_weight : ℚ) : List Memory :=
  let scores := bm25.filterMap (fun m => m.score)
  let bm25_max := scores.foldl max 0
  let bm25_min := scores.foldl min f64MAX
  let bm25_range :=
    if |bm25_max - bm25_min| < 1 / 10 ^ 12 then 1 else bm25_max - bm25_min
  let map1 := bm25.foldl (fun acc m =>
    mapInsert acc m.id (m.score.map (fun s => (s - bm25_min) / bm25_range), none, m)) []
  let map2 := vector.foldl (fun acc m =>
    if acc.any (fun p => p.1 == m.id) then mapUpdateVec acc m.id m.score
    else acc ++ [(m.id, (none, m.score, m))]) map1
  map2.map (fun p =>
    match p with
    | (_, b, v, mem) =>
      { mem with score := some (b.getD 0 * bm25_weight + v.getD 0 * vector_weight) })

/-- Embedding of `apply_temporal_decay` (engine/memory.rs): rows whose
`created_at` parses get their score multiplied by the exponential decay
factor.  Timestamp parsing and the transcendental factor
`exp(-ln 2 · age/30)` are abstracted together into `decayFactor`
(`none` models an unparseable timestamp, which leaves the row unchanged). -/
def apply_temporal_decay (decayFactor : String → Option ℚ)
    (memories : List Memory) : List Memory :=
  memories.map (fun m =>
    match decayFactor m.created_at, m.score with
    | some d, some s => { m with score := some (s * d) }
    | _, _ => m)

/-- One step of a stable insertion sort for the descending-score `sort_by`
comparator of `search_memories` and `mmr_rerank` (missing scores read as 0,
as `unwrap_or(0.0)` does). -/
def insertByScoreDesc (x : Memory) : List Memory → List Memory
  | [] => [x]
  | y :: ys =>
    if x.score.getD 0 < y.score.getD 0 then y :: insertByScoreDesc x ys
    else x :: y :: ys

/-- The descending-score sort.  Rust `sort_by` is a stable sort, and a
stable sort's output is uniquely determined by the comparator and the input
list, so this structural insertion sort computes the same list as the
source's stable sort. -/
def sortByScoreDesc (l : List Memory) : List Memory :=
  l.foldr insertByScoreDesc []

/-- Trim of `trim_matches(|c| !c.is_alphanumeric())`: strip non-alphanumeric
characters from both ends. -/
def trimNonAlnum (w : String) : String :=
  String.mk ((((w.toList).dropWhile (fun c => !c.isAlphanum)).reverse.dropWhile
    (fun c => !c.isAlphanum)).reverse)

/-- Word set of `content_similarity` (engine/memory.rs): whitespace-split
words, trimmed of non-alphanumeric edges, keeping length > 2; the Rust
HashSet is modelled as a deduplicated list. -/
def simWords (s : String) : List String :=
  (((tokenizeAux (fun c => c.isWhitespace) s.toList []).map trimNonAlnum).filter
    (fun w => 2 < w.length)).dedup

/-- Embedding of `content_similarity` (engine/memory.rs): Jaccard
similarity of the two word sets. -/
def content_similarity (a b : String) : ℚ :=
  let aw := simWords a
  let bw := simWords b
  if aw.isEmpty && bw.isEmpty then 1
  else
    let inter := (aw.filter (fun w => bw.contains w)).length
    let union := (aw ++ bw.filter (fun w => !aw.contains w)).length
    if union < 1 then 0 else (inter : ℚ) / (union : ℚ)

/-- The MMR objective `lambda · relevance − (1 − lambda) · max_sim` of one
candidate against the already-selected rows (`fold(0.0, f64::max)` seed 0). -/
def mmrScore (selected : List Memory) (lambda : ℚ) (c : Memory) : ℚ :=
  lambda * c.score.getD 0 -
    (1 - lambda) *
      ((selected.map (fun s => content_similarity c.content s.content)).foldl max 0)

/-- Index of the best-scoring candidate: Rust's loop starts from
`best_mmr = f64::NEG_INFINITY` (modelled as `none`) and keeps the first
strict maximum. -/
def mmrBestIdxAux (selected : List Memory) (lambda : ℚ) :
    List Memory → Nat → Option (Nat × ℚ) → Nat
  | [], _, best => match best with | some (bi, _) => bi | none => 0
  | c :: rest, i, best =>
    match best with
    | some (bi, bs) =>
      if bs < mmrScore selected lambda c then
        mmrBestIdxAux selected lambda rest (i + 1) (some (i, mmrScore selected lambda c))
      else mmrBestIdxAux selected lambda rest (i + 1) (some (bi, bs))
    | none => mmrBestIdxAux selected lambda rest (i + 1) (some (i, mmrScore selected lambda c))

/-- The greedy selection loop of `mmr_rerank`; the fuel argument equals the
length of `remaining` (each iteration removes exactly one candidate), so
the model runs the loop to its actual termination. -/
def mmrLoop (lambda : ℚ) (k : Nat) :
    Nat → List Memory → List Memory → List Memory
  | 0, selected, _ => selected
  | n + 1, selected, remaining =>
    if k ≤ selected.length || remaining.isEmpty then selected
    else
      let bi := mmrBestIdxAux selected lambda remaining 0 none
      mmrLoop lambda k n (selected ++ [remaining.getD bi default])
        (remaining.eraseIdx bi)

/-- Embedding of `mmr_rerank` (engine/memory.rs): pick the highest-scored
candidate, then greedily add candidates maximizing the MMR objective. -/
def mmr_rerank (candidates : List Memory) (k : Nat) (lambda : ℚ) : List Memory :=
  if candidates.isEmpty || k == 0 then []
  else
    match sortByScoreDesc candidates with
    | [] => []
    | first :: rest => mmrLoop lambda k rest.length [first] rest

/-- Embedding of `search_memories` (engine/memory.rs).  The store-level
queries are the spec-modelled functions above.  `bm25Ok` models whether the
BM25 store query succeeded (on error the code continues with an empty
list), `hasClient` whether an embedding client was supplied, `embedOk`
whether embedding the query succeeded (this alone decides
`query_embedding.is_some()`), `vecOk` whether the vector store query
succeeded. -/
def search_memories (db : List Memory) (bm25score sim : Memory → ℚ)
    (decayFactor : String → Option ℚ) (bm25Ok hasClient embedOk vecOk : Bool)
    (query : String) (limit : Nat) (threshold : ℚ) (agent_id : Option String) :
    List Memory :=
  let fetch_limit := limit * 3
  let bm25_results :=
    if bm25Ok then search_memories_bm25 db bm25score query fetch_limit agent_id
    else []
  let vector_results :=
    if hasClient && embedOk && vecOk then
      search_memories_by_embedding db sim fetch_limit threshold agent_id
    else []
  let merged := merge_search_results bm25_results vector_results (2 / 5) (3 / 5)
  if merged.isEmpty then search_memories_keyword db query limit
  else
    let decayed := apply_temporal_decay decayFactor merged
    if hasClient && embedOk && decide (limit < decayed.length) then
      mmr_rerank decayed limit (7 / 10)
    else (sortByScoreDesc decayed).take limit

/-- Modelled from the spec: `SessionStore::store_memory` (store-level write,
not in the sources) — persists the row keyed by `id` with the optional
embedding bytes; its tests show upsert-by-id semantics. -/
def store_insert_memory (db : List Memory) (id content category : String)
    (importance : Nat) (embedding : Option (List Nat)) (agent_id : Option String)
    (now : String) : List Memory :=
  if db.any (fun m => m.id == id) then
    db.map (fun m =>
      if m.id == id then ⟨id, content, category, importance, embedding, agent_id, now, none⟩
      else m)
  else db ++ [⟨id, content, category, importance, embedding, agent_id, now, none⟩]

/-- Embedding of the engine-level `store_memory` (engine/memory.rs):
computes embedding bytes when a client is available — `none` models no
client, `some (Except.error e)` a failed embed call (only logged),
`some (Except.ok bytes)` a successful one (`f32_vec_to_bytes` already
applied) — persists the row either way and returns Ok with the fresh id. -/
def store_memory (db : List Memory) (id content category : String)
    (importance : Nat) (embedClient : Option (Except String (List Nat)))
    (agent_id : Option String) (now : String) :
    Except String String × List Memory :=
  let embedding_bytes : Option (List Nat) :=
    match embedClient with
    | some (Except.ok vec) => some vec
    | some (Except.error _) => none
    | none => none
  (Except.ok id,
   store_insert_memory db id content category importance embedding_bytes agent_id now)

/-! ## Lemmas for the memory claims -/

theorem mem_search_bm25_scope (db : List Memory) (bm25score : Memory → ℚ)
    (query : String) (fl : Nat) (scope : String) :
    ∀ m ∈ search_memories_bm25 db bm25score query fl (some scope),
      m.agent_id = some scope ∨ m.agent_id = none := by
  intro m hm
  unfold search_memories_bm25 at hm
  have hm' := List.take_subset _ _ hm
  rw [List.mem_map] at hm'
  obtain ⟨m0, hm0, rfl⟩ := hm'
  rw [List.mem_filter, Bool.and_eq_true] at hm0
  have h := hm0.2.2
  simpa [agentScopeOk] using h

theorem mem_search_embedding_scope (db : List Memory) (sim : Memory → ℚ)
    (fl : Nat) (threshold : ℚ) (scope : String) :
    ∀ m ∈ search_memories_by_embedding db sim fl threshold (some scope),
      m.agent_id = some scope ∨ m.agent_id = none := by
  intro m hm
  unfold search_memories_by_embedding at hm
  have hm' := List.take_subset _ _ hm
  rw [List.mem_map] at hm'
  obtain ⟨m0, hm0, rfl⟩ := hm'
  rw [List.mem_filter, Bool.and_eq_true] at hm0
  have h := hm0.2.2
  simpa [agentScopeOk] using h

theorem mapInsert_pred (Q : Memory → Prop) (acc : List (String × MergeEntry))
    (k : String) (v : MergeEntry) (hacc : ∀ p ∈ acc, Q p.2.2.2) (hv : Q v.2.2) :
    ∀ p ∈ mapInsert acc k v, Q p.2.2.2 := by
  intro p hp
  unfold mapInsert at hp
  split at hp
  · rw [List.mem_map] at hp
    obtain ⟨p0, hp0, rfl⟩ := hp
    split
    · exact hv
    · exact hacc p0 hp0
  · rw [List.mem_append] at hp
    rcases hp with hp | hp
    · exact hacc p hp
    · rw [List.mem_singleton] at hp
      subst hp
      exact hv

theorem mapUpdateVec_pred (Q : Memory → Prop) (acc : List (String × MergeEntry))
    (k : String) (v : Option ℚ) (hacc : ∀ p ∈ acc, Q p.2.2.2) :
    ∀ p ∈ mapUpdateVec acc k v, Q p.2.2.2 := by
  intro p hp
  unfold mapUpdateVec at hp
  rw [List.mem_map] at hp
  obtain ⟨p0, hp0, rfl⟩ := hp
  split
  · exact hacc p0 hp0
  · exact hacc p0 hp0

theorem foldl_bm25_pred (Q : Memory → Prop) (bmin brange : ℚ) :
    ∀ (l : List Memory) (acc : List (String × MergeEntry)),
      (∀ m ∈ l, Q m) → (∀ p ∈ acc, Q p.2.2.2) →
      ∀ p ∈ l.foldl (fun acc m =>
          mapInsert acc m.id (m.score.map (fun s => (s - bmin) / brange), none, m)) acc,
        Q p.2.2.2 := by
  intro l
  induction l with
  | nil => intro acc _ hacc p hp; exact hacc p hp
  | cons c rest ih =>
    intro acc hl hacc p hp
    rw [List.foldl_cons] at hp
    exact ih _ (fun m hm => hl m (List.mem_cons_of_mem _ hm))
      (mapInsert_pred Q acc c.id _ hacc (hl c (List.mem_cons_self _ _))) p hp

theorem foldl_vec_pred (Q : Memory → Prop) :
    ∀ (l : List Memory) (acc : List (String × MergeEntry)),
      (∀ m ∈ l, Q m) → (∀ p ∈ acc, Q p.2.2.2) →
      ∀ p ∈ l.foldl (fun acc m =>
          if acc.any (fun p => p.1 == m.id) then mapUpdateVec acc m.id m.score
          else acc ++ [(m.id, (none, m.score, m))]) acc,
        Q p.2.2.2 := by
  intro l
  induction l with
  | nil => intro acc _ hacc p hp; exact hacc p hp
  | cons c rest ih =>
    intro acc hl hacc p hp
    rw [List.foldl_cons] at hp
    refine ih _ (fun m hm => hl m (List.mem_cons_of_mem _ hm)) ?_ p hp
    split
    · exact mapUpdateVec_pred Q acc c.id c.score hacc
    · intro q hq
      rw [List.mem_append] at hq
      rcases hq with hq | hq
      · exact hacc q hq
      · rw [List.mem_singleton] at hq
        subst hq
        exact hl c (List.mem_cons_self _ _)

theorem mem_merge_agent (bm vec : List Memory) (w1 w2 : ℚ) :
    ∀ m ∈ merge_search_results bm vec w1 w2,
      (∃ m0 ∈ bm, m.agent_id = m0.agent_id) ∨
      (∃ m0 ∈ vec, m.agent_id = m0.agent_id) := by
  intro m hm
  simp only [merge_search_results] at hm
  rw [List.mem_map] at hm
  obtain ⟨p, hp, rfl⟩ := hm
  have hthis : p.2.2.2 ∈ bm ∨ p.2.2.2 ∈ vec := by
    refine foldl_vec_pred (fun mem => mem ∈ bm ∨ mem ∈ vec) vec _
      (fun m hm => Or.inr hm) ?_ p hp
    refine foldl_bm25_pred (fun mem => mem ∈ bm ∨ mem ∈ vec) _ _ bm []
      (fun m hm => Or.inl hm) ?_
    intro q hq
    exact absurd hq (List.not_mem_nil q)
  obtain ⟨k, b, v, mem⟩ := p
  rcases hthis with h | h
  · exact Or.inl ⟨mem, h, rfl⟩
  · exact Or.inr ⟨mem, h, rfl⟩

theorem mem_decay_agent (decayFactor : String → Option ℚ) (l : List Memory) :
    ∀ m ∈ apply_temporal_decay decayFactor l, ∃ m0 ∈ l, m.agent_id = m0.agent_id := by
  intro m hm
  unfold apply_temporal_decay at hm
  rw [List.mem_map] at hm
  obtain ⟨m0, hm0, rfl⟩ := hm
  refine ⟨m0, hm0, ?_⟩
  split <;> rfl

theorem mem_insertByScoreDesc (x : Memory) (l : List Memory) :
    ∀ m ∈ insertByScoreDesc x l, m = x ∨ m ∈ l := by
  induction l with
  | nil =>
    intro m hm
    unfold insertByScoreDesc at hm
    rw [List.mem_singleton] at hm
    exact Or.inl hm
  | cons y ys ih =>
    intro m hm
    unfold insertByScoreDesc at hm
    split at hm
    · rcases List.mem_cons.mp hm with h | h
      · exact Or.inr (by rw [h]; exact List.mem_cons_self _ _)
      · rcases ih m h with h' | h'
        · exact Or.inl h'
        · exact Or.inr (List.mem_cons_of_mem _ h')
    · rcases List.mem_cons.mp hm with h | h
      · exact Or.inl h
      · exact Or.inr h

theorem mem_sortByScoreDesc (l : List Memory) :
    ∀ m ∈ sortByScoreDesc l, m ∈ l := by
  unfold sortByScoreDesc
  induction l with
  | nil => intro m hm; exact absurd hm (List.not_mem_nil m)
  | cons y ys ih =>
    intro m hm
    rw [List.foldr_cons] at hm
    rcases mem_insertByScoreDesc y _ m hm with h | h
    · rw [h]; exact List.mem_cons_self _ _
    · exact List.mem_cons_of_mem _ (ih m h)

theorem mmrBestIdxAux_lt_of_some (sel : List Memory) (lambda : ℚ) :
    ∀ (l : List Memory) (i bi : Nat) (bs : ℚ), bi < i →
      mmrBestIdxAux sel lambda l i (some (bi, bs)) < i + l.length := by
  intro l
  induction l with
  | nil =>
    intro i bi bs h
    simpa [mmrBestIdxAux] using h
  | cons c rest ih =>
    intro i bi bs h
    unfold mmrBestIdxAux
    simp only [List.length_cons]
    split
    · have := ih (i + 1) i (mmrScore sel lambda c) (by omega)
      omega
    · have := ih (i + 1) bi bs (by omega)
      omega

theorem mmrBestIdxAux_lt (sel : List Memory) (lambda : ℚ) (rem : List Memory)
    (h : rem ≠ []) : mmrBestIdxAux sel lambda rem 0 none < rem.length := by
  cases rem with
  | nil => exact absurd rfl h
  | cons c rest =>
    unfold mmrBestIdxAux
    have := mmrBestIdxAux_lt_of_some sel lambda rest 1 0 (mmrScore sel lambda c)
      (by omega)
    simpa [Nat.add_comm] using this

theorem mmrLoop_subset (lambda : ℚ) (k : Nat) :
    ∀ (fuel : Nat) (sel rem : List Memory), ∀ m ∈ mmrLoop lambda k fuel sel rem,
      m ∈ sel ∨ m ∈ rem := by
  intro fuel
  induction fuel with
  | zero =>
    intro sel rem m hm
    exact Or.inl hm
  | succ n ih =>
    intro sel rem m hm
    unfold mmrLoop at hm
    split at hm
    · exact Or.inl hm
    · rename_i hcond
      have hrem : rem ≠ [] := by
        intro hnil
        subst hnil
        simp at hcond
      rcases ih _ _ m hm with h | h
      · rcases List.mem_append.mp h with h | h
        · exact Or.inl h
        · rw [List.mem_singleton] at h
          subst h
          right
          have hb := mmrBestIdxAux_lt sel lambda rem hrem
          rw [List.getD_eq_getElem _ _ hb]
          exact List.getElem_mem hb
      · right
        exact List.eraseIdx_subset _ _ h

theorem mem_mmr_rerank (cands : List Memory) (k : Nat) (lambda : ℚ) :
    ∀ m ∈ mmr_rerank cands k lambda, m ∈ cands := by
  intro m hm
  unfold mmr_rerank at hm
  split at hm
  · exact absurd hm (List.not_mem_nil m)
  · split at hm
    · exact absurd hm (List.not_mem_nil m)
    · rename_i first rest hsort
      have hsub : ∀ x ∈ sortByScoreDesc cands, x ∈ cands := mem_sortByScoreDesc cands
      rcases mmrLoop_subset lambda k rest.length [first] rest m hm with h | h
      · rw [List.mem_singleton] at h
        subst h
        exact hsub m (by rw [hsort]; exact List.mem_cons_self _ _)
      · exact hsub m (by rw [hsort]; exact List.mem_cons_of_mem _ h)

/-! ## Theorems for claims C1 and C9 -/

/-- C1 (counterexample): with scope `a1`, a memory owned by agent `a2` whose
content substring-matches the query is returned by the `LIKE` fallback path
(both branches empty: BM25 excludes it by scope, no embedding client), so
the claim fails on the fallback path. -/
theorem search_memories_scope_counterexample :
    ¬ (∀ m ∈ search_memories
        [⟨"m1", "alpha beta", "general", 5, none, some "a2",
          "2024-01-01 00:00:00", none⟩]
        (fun _ => 1) (fun _ => 1) (fun _ => none) true false false false
        "alpha" 5 (1 / 2) (some "a1"),
      m.agent_id = some "a1" ∨ m.agent_id = none) := by
  decide

/-- C1 (amended): when an agent scope is given and the merged BM25/vector
candidate list is nonempty (so the `LIKE` fallback is not taken), every
returned memory has `agent_id = scope` or `agent_id = none`.  The fallback
path itself does not filter by agent — `search_memories_keyword` never
receives the scope — which is what the counterexample exhibits. -/
theorem search_memories_agent_scope (db : List Memory) (bm25score sim : Memory → ℚ)
    (decayFactor : String → Option ℚ) (bm25Ok hasClient embedOk vecOk : Bool)
    (query : String) (limit : Nat) (threshold : ℚ) (scope : String)
    (hmerged : (merge_search_results
        (if bm25Ok then
          search_memories_bm25 db bm25score query (limit * 3) (some scope)
         else [])
        (if hasClient && embedOk && vecOk then
          search_memories_by_embedding db sim (limit * 3) threshold (some scope)
         else [])
        (2 / 5) (3 / 5)).isEmpty = false) :
    ∀ m ∈ search_memories db bm25score sim decayFactor bm25Ok hasClient embedOk
        vecOk query limit threshold (some scope),
      m.agent_id = some scope ∨ m.agent_id = none := by
  intro m hm
  simp only [search_memories] at hm
  rw [hmerged] at hm
  simp only [Bool.false_eq_true, if_false] at hm
  generalize hdec : apply_temporal_decay decayFactor
      (merge_search_results
        (if bm25Ok then
          search_memories_bm25 db bm25score query (limit * 3) (some scope)
         else [])
        (if hasClient && embedOk && vecOk then
          search_memories_by_embedding db sim (limit * 3) threshold (some scope)
         else [])
        (2 / 5) (3 / 5)) = dec at hm
  have key : ∀ x ∈ dec, x.agent_id = some scope ∨ x.agent_id = none := by
    intro x hx
    rw [← hdec] at hx
    obtain ⟨m0, hm0, heq⟩ := mem_decay_agent _ _ x hx
    rcases mem_merge_agent _ _ _ _ m0 hm0 with ⟨m1, hm1, heq1⟩ | ⟨m1, hm1, heq1⟩
    · by_cases hb : bm25Ok = true
      · rw [if_pos hb] at hm1
        have := mem_search_bm25_scope db bm25score query (limit * 3) scope m1 hm1
        rw [heq, heq1]
        exact this
      · rw [if_neg hb] at hm1
        exact absurd hm1 (List.not_mem_nil m1)
    · by_cases hb : (hasClient && embedOk && vecOk) = true
      · rw [if_pos hb] at hm1
        have := mem_search_embedding_scope db sim (limit * 3) threshold scope m1 hm1
        rw [heq, heq1]
        exact this
      · rw [if_neg hb] at hm1
        exact absurd hm1 (List.not_mem_nil m1)
  split at hm
  · exact key m (mem_mmr_rerank _ _ _ m hm)
  · exact key m (mem_sortByScoreDesc _ m (List.take_subset _ _ hm))

theorem search_memories_agent_scope_witness :
    (search_memories
        [⟨"m1", "hello world", "general", 5, none, none, "2024", none⟩]
        (fun _ => 1) (fun _ => 1) (fun _ => none) true false false false
        "hello" 5 (1 / 2) (some "a1")).all
      (fun m => decide (m.agent_id = some "a1" ∨ m.agent_id = none)) = true := by
  have h := search_memories_agent_scope
    [⟨"m1", "hello world", "general", 5, none, none, "2024", none⟩]
    (fun _ => 1) (fun _ => 1) (fun _ => none) true false false false
    "hello" 5 (1 / 2) "a1" (by decide)
  exact List.all_eq_true.mpr (fun m hm => decide_eq_true (h m hm))

theorem store_insert_memory_mem (db : List Memory) (id content category : String)
    (importance : Nat) (eb : Option (List Nat)) (agent : Option String)
    (now : String) :
    (⟨id, content, category, importance, eb, agent, now, none⟩ : Memory) ∈
      store_insert_memory db id content category importance eb agent now := by
  unfold store_insert_memory
  by_cases h : db.any (fun m => m.id == id) = true
  · rw [if_pos h]
    rw [List.any_eq_true] at h
    obtain ⟨m, hm, hbeq⟩ := h
    rw [List.mem_map]
    exact ⟨m, hm, by rw [if_pos hbeq]⟩
  · rw [if_neg h]
    exact List.mem_append_right _ (List.mem_singleton.mpr rfl)

/-- C9: when the embedding call fails (`some (Except.error e)`) or no
embedding client is available (`none`), `store_memory` still persists the
memory row — with no embedding bytes — and returns Ok with the new id. -/
theorem store_memory_embed_failure (db : List Memory)
    (id content category : String) (importance : Nat)
    (embedClient : Option (Except String (List Nat))) (agent_id : Option String)
    (now : String)
    (hfail : embedClient = none ∨ ∃ e, embedClient = some (Except.error e)) :
    (store_memory db id content category importance embedClient agent_id now).1
        = Except.ok id
    ∧ (⟨id, content, category, importance, none, agent_id, now, none⟩ : Memory)
        ∈ (store_memory db id content category importance embedClient agent_id now).2 := by
  rcases hfail with h | ⟨e, h⟩ <;> subst h <;>
    exact ⟨rfl, store_insert_memory_mem db id content category importance none agent_id now⟩

theorem store_memory_embed_failure_witness :
    (store_memory [] "id-1" "likes tea" "preference" 7
        (some (Except.error "boom")) (some "a1") "t0").1 = Except.ok "id-1"
    ∧ (⟨"id-1", "likes tea", "preference", 7, none, some "a1", "t0", none⟩ : Memory)
        ∈ (store_memory [] "id-1" "likes tea" "preference" 7
            (some (Except.error "boom")) (some "a1") "t0").2 :=
  store_memory_embed_failure [] "id-1" "likes tea" "preference" 7
    (some (Except.error "boom")) (some "a1") "t0" (Or.inr ⟨"boom", rfl⟩)

/-! ## engine/skills/prompt.rs — skill context compiler

Strings are measured in characters here where Rust measures bytes; the
literals involved in the claims are ASCII apart from a few marker glyphs in
the fixed header/footer, so lengths differ only by those constant glyphs. -/

/-- The fixed assembly/compression header of the skills fragment
(engine/skills/prompt.rs). -/
def skillsHeader : String :=
  "\n\n# Enabled Skills\nYou have the following skills available. Use exec, fetch, read_file, write_file, and other built-in tools to leverage them.\n\n"

/-- The always-appended compression notice (the `footer` of
`compress_skill_sections`). -/
def skillsFooter : String :=
  "\n\n⚠️ Some skill instructions were compressed to save context. Use `soul_read` on the skill's documentation or `request_tools` to discover full tool schemas.\n"

/-- The per-section truncation note appended by `compress_one_section`. -/
def truncationNote : String :=
  "\n[... truncated — use `request_tools` for full tool details]"

/-- Embedding of the `has_credentials` closure of `compress_skill_sections`:
lowercased credential-marker search. -/
def has_credentials (s : String) : Bool :=
  strContainsSub (lowerStr s) "api key" || strContainsSub (lowerStr s) "api_key" ||
  strContainsSub (lowerStr s) "bearer " || strContainsSub (lowerStr s) "token:" ||
  strContainsSub (lowerStr s) "credentials available" ||
  strContainsSub (lowerStr s) "base url:" || strContainsSub (lowerStr s) "endpoint:"

/-- Embedding of `compress_one_section` (engine/skills/prompt.rs): keep the
first line, truncate the body at a line boundary within
`max_chars - header - 30`, append the truncation note. -/
def compress_one_section (section' : String) (max_chars : Nat) : String :=
  if section'.length ≤ max_chars then section'
  else
    let l := section'.toList
    let first_line_end := l.findIdx (fun c => c == '\n')
    let header := l.take first_line_end
    let body_budget := max_chars - (header.length + 30)
    let body := l.drop first_line_end
    let truncated_body :=
      if body_budget < body.length then
        let slice := body.take body_budget
        let last_nl :=
          match slice.reverse.findIdx? (fun c => c == '\n') with
          | some j => slice.length - 1 - j
          | none => body_budget
        body.take last_nl
      else body
    String.mk (header ++ truncated_body) ++ truncationNote

/-- Phase 1 of `compress_skill_sections`: priority (credential-bearing)
sections, emitted full while they fit, else compressed to ~600 chars and
re-checked, else dropped.  Returns the emitted `(index, text)` parts and
the final `used` count. -/
def phase1 (section_budget : Nat) :
    List (Nat × String) → Nat → List (Nat × String) × Nat
  | [], used => ([], used)
  | (idx, s) :: rest, used =>
    if used + s.length < section_budget then
      let r := phase1 section_budget rest (used + s.length + 2)
      ((idx, s) :: r.1, r.2)
    else
      let c := compress_one_section s 600
      if used + c.length < section_budget then
        let r := phase1 section_budget rest (used + c.length + 2)
        ((idx, c) :: r.1, r.2)
      else phase1 section_budget rest used

/-- Phase 2 of `compress_skill_sections`: normal sections, emitted full
while they fit; else, when 350 more characters would fit, emitted
compressed to ~300 chars without re-checking the compressed length; else
dropped. -/
def phase2 (section_budget : Nat) :
    List (Nat × String) → Nat → List (Nat × String) × Nat
  | [], used => ([], used)
  | (idx, s) :: rest, used =>
    if used + s.length < section_budget then
      let r := phase2 section_budget rest (used + s.length + 2)
      ((idx, s) :: r.1, r.2)
    else if used + 350 < section_budget then
      let c := compress_one_section s 300
      let r := phase2 section_budget rest (used + c.length + 2)
      ((idx, c) :: r.1, r.2)
    else phase2 section_budget rest used

/-- Stable ascending sort by original index (`sort_by_key`); the indices
from `enumerate` are distinct, so any stable sort gives the source's
order. -/
def insertByIdx (x : Nat × String) : List (Nat × String) → List (Nat × String)
  | [] => [x]
  | y :: ys => if x.1 < y.1 then x :: y :: ys else y :: insertByIdx x ys

def sortByIdx (l : List (Nat × String)) : List (Nat × String) :=
  l.foldr insertByIdx []

/-- `Vec::join` / `String.intercalate`. -/
def joinSep (sep : String) : List String → String
  | [] => ""
  | [s] => s
  | s :: s' :: rest => s ++ sep ++ joinSep sep (s' :: rest)

/-- Embedding of `compress_skill_sections` (engine/skills/prompt.rs). -/
def compress_skill_sections (sections : List String) (community : String)
    (budget : Nat) : String :=
  let overhead := skillsHeader.length + skillsFooter.length
  let community_reserve :=
    if community.length = 0 then 0 else min community.length 2000 + 2
  let section_budget := budget - (overhead + community_reserve)
  let priority_sections := sections.enum.filter (fun p => has_credentials p.2)
  let normal_sections := sections.enum.filter (fun p => !has_credentials p.2)
  let r1 := phase1 section_budget priority_sections 0
  let r2 := phase2 section_budget normal_sections r1.2
  let joined := joinSep "\n\n" ((sortByIdx (r1.1 ++ r2.1)).map (fun p => p.2))
  let result := skillsHeader ++ joined ++ skillsFooter
  if community.length = 0 then result
  else
    let remaining := budget - result.length
    if 100 < remaining then
      result ++ String.mk (community.toList.take (min community.length remaining))
    else result

/-- The 16000-character budget (`MAX_SKILL_CHARS`). -/
def MAX_SKILL_CHARS : Nat := 16000

/-- Embedding of the assembly and budget guard of
`get_enabled_skill_instructions` (engine/skills/prompt.rs, lines 89–119),
taking the already-collected section list as input: join the sections under
the fixed header and, if the fragment exceeds the budget, compress it
(community text is already merged into `sections` at the call site, so the
compressor receives an empty community argument, exactly as in the
source). -/
def assemble_skill_instructions (sections : List String) : String :=
  let result :=
    if sections.isEmpty then ""
    else skillsHeader ++ joinSep "\n\n" sections ++ "\n"
  if MAX_SKILL_CHARS < result.length then
    compress_skill_sections sections "" MAX_SKILL_CHARS
  else result

set_option maxRecDepth 2000 in
/-- C4: evidence of the budget violation — for a single 20000-character
single-line section without credential markers, the assembled fragment
exceeds the budget, the compressor runs, and its output still exceeds the
16000-character budget: phase 2 emits the "compressed" section after
checking only that 350 more characters would fit, and
`compress_one_section` keeps the whole (here 20000-character) first line,
so the result is about 20 360 characters long. -/
theorem strlen_mk (l : List Char) : (String.mk l).length = l.length := rfl

theorem toList_mk (l : List Char) : (String.mk l).toList = l := rfl

theorem tails_any_prefix_replicate (c0 : Char) (cs : List Char)
    (h : (c0 == 'x') = false) :
    ∀ n, ((List.replicate n 'x').tails.any
      (fun t => (c0 :: cs).isPrefixOf t)) = false := by
  intro n
  induction n with
  | zero => simp [List.isPrefixOf]
  | succ n ih =>
    rw [List.replicate_succ, List.tails_cons, List.any_cons, ih]
    simp [List.isPrefixOf, h]

theorem strContainsSub_replicate_x (n : Nat) (needle : String) (c0 : Char)
    (cs : List Char) (hn : needle.toList = c0 :: cs) (h : (c0 == 'x') = false) :
    strContainsSub (String.mk (List.replicate n 'x')) needle = false := by
  unfold strContainsSub
  rw [hn, toList_mk]
  exact tails_any_prefix_replicate c0 cs h n

set_option maxRecDepth 2000 in
theorem hasCred_replicate_x (n : Nat) :
    has_credentials (String.mk (List.replicate n 'x')) = false := by
  have hl : lowerStr (String.mk (List.replicate n 'x'))
      = String.mk (List.replicate n 'x') := by
    unfold lowerStr
    rw [toList_mk, List.map_replicate]
    rw [show Char.toLower 'x' = 'x' from by decide]
  unfold has_credentials
  rw [hl]
  rw [strContainsSub_replicate_x n _ 'a' _ rfl (by decide),
    strContainsSub_replicate_x n _ 'a' _ rfl (by decide),
    strContainsSub_replicate_x n _ 'b' _ rfl (by decide),
    strContainsSub_replicate_x n _ 't' _ rfl (by decide),
    strContainsSub_replicate_x n _ 'c' _ rfl (by decide),
    strContainsSub_replicate_x n _ 'b' _ rfl (by decide),
    strContainsSub_replicate_x n _ 'e' _ rfl (by decide)]
  rfl

theorem findIdx_replicate_x (n : Nat) :
    (List.replicate n 'x').findIdx (fun c => c == '\n') = n := by
  induction n with
  | zero => rfl
  | succ n ih =>
    rw [List.replicate_succ, List.findIdx_cons]
    simp [ih]

theorem take_replicate_self (n : Nat) (c : Char) :
    (List.replicate n c).take n = List.replicate n c := by
  induction n with
  | zero => rfl
  | succ n ih => rw [List.replicate_succ, List.take_succ_cons, ih]

theorem drop_replicate_self (n : Nat) (c : Char) :
    (List.replicate n c).drop n = [] := by
  induction n with
  | zero => rfl
  | succ n ih => rw [List.replicate_succ, List.drop_succ_cons, ih]

theorem compress_one_section_replicate (n mc : Nat) (hmc : mc < n) :
    compress_one_section (String.mk (List.replicate n 'x')) mc
      = String.mk (List.replicate n 'x') ++ truncationNote := by
  unfold compress_one_section
  rw [if_neg (by rw [strlen_mk, List.length_replicate]; omega)]
  simp only [toList_mk, findIdx_replicate_x]
  rw [take_replicate_self, drop_replicate_self]
  rw [if_neg (by simp)]
  rw [List.append_nil]

theorem pair_fst_eq {α β : Type} (a : α) (b : β) : (a, b).1 = a := rfl

theorem pair_snd_eq {α β : Type} (a : α) (b : β) : (a, b).2 = b := rfl

theorem phase1_nil (sb u : Nat) : phase1 sb [] u = ([], u) := rfl

theorem sortByIdx_single (x : Nat × String) : sortByIdx [x] = [x] := rfl

theorem joinSep_single (sep s : String) : joinSep sep [s] = s := rfl

set_option maxRecDepth 2000 in
theorem phase2_step :
    phase2 15699 [((0 : Nat), String.mk (List.replicate 20000 'x'))] 0
      = (if 0 + (String.mk (List.replicate 20000 'x')).length < 15699 then
          let r := phase2 15699 []
            (0 + (String.mk (List.replicate 20000 'x')).length + 2)
          (((0 : Nat), String.mk (List.replicate 20000 'x')) :: r.1, r.2)
        else if 0 + 350 < 15699 then
          let c := compress_one_section (String.mk (List.replicate 20000 'x')) 300
          let r := phase2 15699 [] (0 + c.length + 2)
          (((0 : Nat), c) :: r.1, r.2)
        else phase2 15699 [] 0) := rfl

set_option maxRecDepth 2000 in
theorem phase2_single_fst :
    (phase2 15699 [((0 : Nat), String.mk (List.replicate 20000 'x'))] 0).1
      = [((0 : Nat), compress_one_section (String.mk (List.replicate 20000 'x')) 300)] := by
  have h1 : ¬ (0 + (String.mk (List.replicate 20000 'x')).length < 15699) := by
    rw [strlen_mk, List.length_replicate]
    omega
  have h2 : (0 : Nat) + 350 < 15699 := by omega
  have step := Eq.trans phase2_step (Eq.trans (if_neg h1) (if_pos h2))
  have final : ((let c := compress_one_section (String.mk (List.replicate 20000 'x')) 300
      let r := phase2 15699 [] (0 + c.length + 2)
      (((0 : Nat), c) :: r.1, r.2)) : List (Nat × String) × Nat).1
      = [((0 : Nat), compress_one_section (String.mk (List.replicate 20000 'x')) 300)] := rfl
  exact Eq.trans (congrArg Prod.fst step) final

set_option maxRecDepth 2000 in
theorem compress_single_eval :
    compress_skill_sections [String.mk (List.replicate 20000 'x')] "" 16000
      = skillsHeader
        ++ compress_one_section (String.mk (List.replicate 20000 'x')) 300
        ++ skillsFooter := by
  have hhdr : skillsHeader.length = 144 := by decide
  have hftr : skillsFooter.length = 157 := by decide
  have hS : (String.mk (List.replicate 20000 'x')).length = 20000 := by
    rw [strlen_mk, List.length_replicate]
  have hemp : ("" : String).length = 0 := rfl
  simp only [compress_skill_sections, hhdr, hftr, hemp]
  simp only [if_true]
  rw [show (16000 - (144 + 157 + (0 : Nat)) : Nat) = 15699 from rfl]
  rw [show ([String.mk (List.replicate 20000 'x')].enum)
      = [((0 : Nat), String.mk (List.replicate 20000 'x'))] from rfl]
  rw [show ([((0 : Nat), String.mk (List.replicate 20000 'x'))].filter
        (fun p => has_credentials p.2)) = [] from by
      rw [List.filter_cons]
      simp only [hasCred_replicate_x, Bool.false_eq_true, if_false, List.filter_nil]]
  rw [show ([((0 : Nat), String.mk (List.replicate 20000 'x'))].filter
        (fun p => !has_credentials p.2))
      = [((0 : Nat), String.mk (List.replicate 20000 'x'))] from by
      rw [List.filter_cons]
      simp only [hasCred_replicate_x, Bool.not_false, if_true, List.filter_nil]]
  rw [phase1_nil]
  rw [pair_snd_eq]
  rw [phase2_single_fst]
  rw [pair_fst_eq, List.nil_append, sortByIdx_single, List.map_cons, List.map_nil]
  simp only [pair_snd_eq]
  rw [joinSep_single]

set_option maxRecDepth 2000 in
/-- C4: evidence of the budget violation — for a single 20000-character
single-line section without credential markers, the assembled fragment
exceeds the budget, the compressor runs, and its output still exceeds the
16000-character budget: phase 2 emits the "compressed" section after
checking only that 350 more characters would fit, and
`compress_one_section` keeps the whole (here 20000-character) first line,
so the result is 20361 characters long. -/
theorem compress_budget_violation :
    MAX_SKILL_CHARS <
      (assemble_skill_instructions [String.mk (List.replicate 20000 'x')]).length := by
  have hS : (String.mk (List.replicate 20000 'x')).length = 20000 := by
    rw [strlen_mk, List.length_replicate]
  have hhdr : skillsHeader.length = 144 := by decide
  have hftr : skillsFooter.length = 157 := by decide
  have hnote : truncationNote.length = 60 := by decide
  have hc := compress_one_section_replicate 20000 300 (by omega)
  simp only [assemble_skill_instructions, MAX_SKILL_CHARS]
  rw [show ([String.mk (List.replicate 20000 'x')].isEmpty) = false from rfl]
  simp only [Bool.false_eq_true, if_false]
  rw [show joinSep "\n\n" [String.mk (List.replicate 20000 'x')]
      = String.mk (List.replicate 20000 'x') from rfl]
  rw [if_pos (by
    rw [String.length_append, String.length_append, hhdr, hS,
      show ("\n" : String).length = 1 from rfl]
    omega)]
  rw [compress_single_eval, hc]
  rw [String.length_append, String.length_append, hhdr, hftr,
    String.length_append, hS, hnote]
  omega

/-! ## engine/skills/crypto.rs — vault credential encryption

Byte strings are `List Nat` with each element < 256; Rust `&str` / `String`
values are Lean `String`s, with UTF-8 encoding and validating decoding
(`String::from_utf8`) modelled explicitly. -/

/-- The standard base64 alphabet. -/
def base64Alphabet : List Char :=
  "ABCDEFGHIJKLMNOPQRSTUVWXYZabcdefghijklmnopqrstuvwxyz0123456789+/".toList

def sextetToChar (n : Nat) : Char := base64Alphabet.getD n 'A'

def charToSextet (c : Char) : Option Nat :=
  base64Alphabet.findIdx? (fun x => x == c)

/-- Standard base64 encoding with `=` padding
(`base64::engine::general_purpose::STANDARD.encode`). -/
def base64EncodeChunks : List Nat → List Char
  | [] => []
  | [a] => [sextetToChar (a / 4), sextetToChar (a % 4 * 16), '=', '=']
  | [a, b] => [sextetToChar (a / 4), sextetToChar (a % 4 * 16 + b / 16),
      sextetToChar (b % 16 * 4), '=']
  | a :: b :: c :: rest =>
      sextetToChar (a / 4) :: sextetToChar (a % 4 * 16 + b / 16) ::
      sextetToChar (b % 16 * 4 + c / 64) :: sextetToChar (c % 64) ::
      base64EncodeChunks rest

def base64Encode (bytes : List Nat) : String := String.mk (base64EncodeChunks bytes)

/-- Standard base64 decoding (`STANDARD.decode`): 4-character blocks, the
final block possibly padded; invalid characters, lengths, or nonzero
trailing bits yield `none`. -/
def base64DecodeChunks : List Char → Option (List Nat)
  | [] => some []
  | [c1, c2, p1, p2] =>
    if p1 == '=' && p2 == '=' then
      match charToSextet c1, charToSextet c2 with
      | some s1, some s2 =>
        if s2 % 16 = 0 then some [s1 * 4 + s2 / 16] else none
      | _, _ => none
    else if p2 == '=' then
      match charToSextet c1, charToSextet c2, charToSextet p1 with
      | some s1, some s2, some s3 =>
        if s3 % 4 = 0 then some [s1 * 4 + s2 / 16, s2 % 16 * 16 + s3 / 4]
        else none
      | _, _, _ => none
    else
      match charToSextet c1, charToSextet c2, charToSextet p1, charToSextet p2 with
      | some s1, some s2, some s3, some s4 =>
        some [s1 * 4 + s2 / 16, s2 % 16 * 16 + s3 / 4, s3 % 4 * 64 + s4]
      | _, _, _, _ => none
  | c1 :: c2 :: c3 :: c4 :: rest =>
    match charToSextet c1, charToSextet c2, charToSextet c3, charToSextet c4,
        base64DecodeChunks rest with
    | some s1, some s2, some s3, some s4, some tl =>
      some ((s1 * 4 + s2 / 16) :: (s2 % 16 * 16 + s3 / 4) :: (s3 % 4 * 64 + s4) :: tl)
    | _, _, _, _, _ => none
  | _ => none

/-- The XOR stream of `encrypt_credential` / `decrypt_credential`:
`bytes.iter().enumerate().map(|(i, b)| b ^ key[i % key.len()])`, with the
running index made explicit. -/
def xor_cycle (key : List Nat) : Nat → List Nat → List Nat
  | _, [] => []
  | i, b :: rest => (b ^^^ key.getD (i % key.length) 0) :: xor_cycle key (i + 1) rest

/-- UTF-8 encoding of one Unicode scalar value (what Rust `str::as_bytes`
yields per `char`). -/
def utf8EncodeChar (c : Char) : List Nat :=
  let v := c.toNat
  if v < 0x80 then [v]
  else if v < 0x800 then [0xC0 + v / 64, 0x80 + v % 64]
  else if v < 0x10000 then [0xE0 + v / 4096, 0x80 + v / 64 % 64, 0x80 + v % 64]
  else [0xF0 + v / 262144, 0x80 + v / 4096 % 64, 0x80 + v / 64 % 64, 0x80 + v % 64]

def utf8Encode (s : List Char) : List Nat := (s.map utf8EncodeChar).flatten

/-- A UTF-8 continuation byte (`0b10xxxxxx`). -/
def isCont (b : Nat) : Prop := 0x80 ≤ b ∧ b < 0xC0

instance (b : Nat) : Decidable (isCont b) := instDecidableAnd

/-- A UTF-16 surrogate code point, invalid as a Unicode scalar value. -/
def isSurrogate (v : Nat) : Prop := 0xD800 ≤ v ∧ v < 0xE000

instance (v : Nat) : Decidable (isSurrogate v) := instDecidableAnd

def utf8Val2 (b1 b2 : Nat) : Nat := (b1 - 0xC0) * 64 + (b2 - 0x80)

def utf8Val3 (b1 b2 b3 : Nat) : Nat :=
  (b1 - 0xE0) * 4096 + (b2 - 0x80) * 64 + (b3 - 0x80)

def utf8Val4 (b1 b2 b3 b4 : Nat) : Nat :=
  (b1 - 0xF0) * 262144 + (b2 - 0x80) * 4096 + (b3 - 0x80) * 64 + (b4 - 0x80)

/-- Validating UTF-8 decoding, one scalar value per step: rejects stray or
missing continuation bytes, overlong encodings (lead bytes 0xC0/0xC1 and
too-small decoded values), surrogates, and values above U+10FFFF.  The
fuel argument only drives the recursion; every step consumes at least one
byte, so fuel = length of the byte list never runs out. -/
def utf8DecodeFuel : Nat → List Nat → Option (List Char)
  | _, [] => some []
  | 0, _ :: _ => none
  | fuel + 1, b1 :: rest =>
    if b1 < 0x80 then
      (utf8DecodeFuel fuel rest).map (fun cs => Char.ofNat b1 :: cs)
    else if b1 < 0xC2 then none
    else if b1 < 0xE0 then
      match rest with
      | b2 :: rest2 =>
        if isCont b2 then
          (utf8DecodeFuel fuel rest2).map (fun cs => Char.ofNat (utf8Val2 b1 b2) :: cs)
        else none
      | [] => none
    else if b1 < 0xF0 then
      match rest with
      | b2 :: b3 :: rest3 =>
        if isCont b2 ∧ isCont b3 ∧ 0x800 ≤ utf8Val3 b1 b2 b3
            ∧ ¬isSurrogate (utf8Val3 b1 b2 b3) then
          (utf8DecodeFuel fuel rest3).map (fun cs => Char.ofNat (utf8Val3 b1 b2 b3) :: cs)
        else none
      | _ => none
    else if b1 < 0xF5 then
      match rest with
      | b2 :: b3 :: b4 :: rest4 =>
        if isCont b2 ∧ isCont b3 ∧ isCont b4 ∧ 0x10000 ≤ utf8Val4 b1 b2 b3 b4
            ∧ utf8Val4 b1 b2 b3 b4 < 0x110000 then
          (utf8DecodeFuel fuel rest4).map (fun cs => Char.ofNat (utf8Val4 b1 b2 b3 b4) :: cs)
        else none
      | _ => none
    else none

/-- Rust `String::from_utf8` on a byte list. -/
def utf8Decode (l : List Nat) : Option (List Char) := utf8DecodeFuel l.length l

/-- Embedding of `encrypt_credential` (engine/skills/crypto.rs): XOR stream
over the cycled key, then base64. -/
def encrypt_credential (plaintext : String) (key : List Nat) : String :=
  base64Encode (xor_cycle key 0 (utf8Encode plaintext.toList))

/-- Embedding of `decrypt_credential` (engine/skills/crypto.rs): base64
decode, XOR with the cycled key, then `String::from_utf8`. -/
def decrypt_credential (encrypted_b64 : String) (key : List Nat) :
    Except String String :=
  match base64DecodeChunks encrypted_b64.toList with
  | none => Except.error "Failed to decode: invalid base64"
  | some encrypted =>
    match utf8Decode (xor_cycle key 0 encrypted) with
    | some cs => Except.ok (String.mk cs)
    | none => Except.error "Failed to decrypt: invalid utf-8"

theorem charToSextet_sextetToChar : ∀ n, n < 64 → charToSextet (sextetToChar n) = some n := by
  decide

theorem sextetToChar_ne_pad : ∀ n, n < 64 → (sextetToChar n == '=') = false := by
  decide

theorem base64EncodeChunks_shape (l : List Nat) (hl : l ≠ []) :
    ∃ e1 e2 e3 e4 es, base64EncodeChunks l = e1 :: e2 :: e3 :: e4 :: es := by
  match l with
  | [] => exact absurd rfl hl
  | [a] => exact ⟨_, _, _, _, _, rfl⟩
  | [a, b] => exact ⟨_, _, _, _, _, rfl⟩
  | a :: b :: c :: rest => exact ⟨_, _, _, _, _, rfl⟩

theorem base64_roundtrip (bytes : List Nat) (h : ∀ b ∈ bytes, b < 256) :
    base64DecodeChunks (base64EncodeChunks bytes) = some bytes := by
  induction bytes using base64EncodeChunks.induct with
  | case1 => rfl
  | case2 a =>
    have ha : a < 256 := h a (by simp)
    have h1 : a / 4 < 64 := by omega
    have h2 : a % 4 * 16 < 64 := by omega
    simp only [base64EncodeChunks, base64DecodeChunks,
      charToSextet_sextetToChar _ h1, charToSextet_sextetToChar _ h2]
    simp only [beq_self_eq_true, Bool.and_self, if_true]
    rw [if_pos (by omega : a % 4 * 16 % 16 = 0)]
    have : a / 4 * 4 + a % 4 * 16 / 16 = a := by omega
    rw [this]
  | case3 a b =>
    have ha : a < 256 := h a (by simp)
    have hb : b < 256 := h b (by simp)
    have h1 : a / 4 < 64 := by omega
    have h2 : a % 4 * 16 + b / 16 < 64 := by omega
    have h3 : b % 16 * 4 < 64 := by omega
    simp only [base64EncodeChunks, base64DecodeChunks,
      charToSextet_sextetToChar _ h1, charToSextet_sextetToChar _ h2,
      charToSextet_sextetToChar _ h3]
    rw [if_neg (by simp [sextetToChar_ne_pad _ h3])]
    simp only [beq_self_eq_true, if_true]
    rw [if_pos (by omega : b % 16 * 4 % 4 = 0)]
    have e1 : a / 4 * 4 + (a % 4 * 16 + b / 16) / 16 = a := by omega
    have e2 : (a % 4 * 16 + b / 16) % 16 * 16 + b % 16 * 4 / 4 = b := by omega
    rw [e1, e2]
  | case4 a b c rest ih =>
    have ha : a < 256 := h a (by simp)
    have hb : b < 256 := h b (by simp)
    have hc : c < 256 := h c (by simp)
    have h1 : a / 4 < 64 := by omega
    have h2 : a % 4 * 16 + b / 16 < 64 := by omega
    have h3 : b % 16 * 4 + c / 64 < 64 := by omega
    have h4 : c % 64 < 64 := by omega
    have hrest : ∀ x ∈ rest, x < 256 := fun x hx => h x (by simp [hx])
    have ih' := ih hrest
    have e1 : a / 4 * 4 + (a % 4 * 16 + b / 16) / 16 = a := by omega
    have e2 : (a % 4 * 16 + b / 16) % 16 * 16 + (b % 16 * 4 + c / 64) / 4 = b := by omega
    have e3 : (b % 16 * 4 + c / 64) % 4 * 64 + c % 64 = c := by omega
    cases rest with
    | nil =>
      simp only [base64EncodeChunks, base64DecodeChunks,
        charToSextet_sextetToChar _ h1, charToSextet_sextetToChar _ h2,
        charToSextet_sextetToChar _ h3, charToSextet_sextetToChar _ h4]
      rw [if_neg (by simp [sextetToChar_ne_pad _ h3, sextetToChar_ne_pad _ h4])]
      rw [if_neg (by simp [sextetToChar_ne_pad _ h4])]
      rw [e1, e2, e3]
    | cons r rs =>
      obtain ⟨f1, f2, f3, f4, fs, hshape⟩ := base64EncodeChunks_shape (r :: rs) (by simp)
      simp only [base64EncodeChunks, hshape]
      simp only [base64DecodeChunks,
        charToSextet_sextetToChar _ h1, charToSextet_sextetToChar _ h2,
        charToSextet_sextetToChar _ h3, charToSextet_sextetToChar _ h4]
      rw [← hshape, ih']
      exact congrArg some (by rw [e1, e2, e3])

theorem char_facts (c : Char) :
    c.toNat < 0x110000 ∧ ¬(0xD800 ≤ c.toNat ∧ c.toNat < 0xE000) := by
  have h := c.valid
  rcases h with h | ⟨h1, h2⟩
  · have h' : c.toNat < 0xD800 := by exact_mod_cast h
    exact ⟨by omega, by omega⟩
  · have h1' : 0xE000 ≤ c.toNat := by exact_mod_cast h1
    have h2' : c.toNat < 0x110000 := by exact_mod_cast h2
    exact ⟨h2', by omega⟩

theorem utf8EncodeChar_lt (c : Char) : ∀ b ∈ utf8EncodeChar c, b < 256 := by
  obtain ⟨hv, _⟩ := char_facts c
  intro b hb
  simp only [utf8EncodeChar] at hb
  split at hb
  next h1 => simp at hb; omega
  next h1 =>
    split at hb
    next h2 => simp at hb; omega
    next h2 =>
      split at hb
      next h3 => simp at hb; omega
      next h3 => simp at hb; omega

theorem utf8Encode_lt (s : List Char) : ∀ b ∈ utf8Encode s, b < 256 := by
  induction s with
  | nil => intro b hb; simp [utf8Encode] at hb
  | cons c cs ih =>
    intro b hb
    simp only [utf8Encode, List.map_cons, List.flatten_cons, List.mem_append] at hb
    rcases hb with hb | hb
    · exact utf8EncodeChar_lt c b hb
    · exact ih b hb

theorem utf8DecodeFuel_one (fuel b1 : Nat) (rest : List Nat) (h : b1 < 0x80) :
    utf8DecodeFuel (fuel + 1) (b1 :: rest) =
      (utf8DecodeFuel fuel rest).map (fun cs => Char.ofNat b1 :: cs) := by
  cases rest with
  | nil => rw [utf8DecodeFuel.eq_4, if_pos h]
  | cons x xs => rw [utf8DecodeFuel.eq_3, if_pos h]

theorem utf8DecodeFuel_two (fuel b1 b2 : Nat) (rest : List Nat)
    (ha : ¬ b1 < 0x80) (hb : ¬ b1 < 0xC2) (hc : b1 < 0xE0) (hd : isCont b2) :
    utf8DecodeFuel (fuel + 1) (b1 :: b2 :: rest) =
      (utf8DecodeFuel fuel rest).map (fun cs => Char.ofNat (utf8Val2 b1 b2) :: cs) := by
  rw [utf8DecodeFuel.eq_3, if_neg ha, if_neg hb, if_pos hc, if_pos hd]

theorem utf8DecodeFuel_three (fuel b1 b2 b3 : Nat) (rest : List Nat)
    (ha : ¬ b1 < 0x80) (hb : ¬ b1 < 0xC2) (hc : ¬ b1 < 0xE0) (hd : b1 < 0xF0)
    (he : isCont b2 ∧ isCont b3 ∧ 0x800 ≤ utf8Val3 b1 b2 b3
        ∧ ¬isSurrogate (utf8Val3 b1 b2 b3)) :
    utf8DecodeFuel (fuel + 1) (b1 :: b2 :: b3 :: rest) =
      (utf8DecodeFuel fuel rest).map (fun cs => Char.ofNat (utf8Val3 b1 b2 b3) :: cs) := by
  rw [utf8DecodeFuel.eq_3, if_neg ha, if_neg hb, if_neg hc, if_pos hd]
  show (if isCont b2 ∧ isCont b3 ∧ 0x800 ≤ utf8Val3 b1 b2 b3
      ∧ ¬isSurrogate (utf8Val3 b1 b2 b3) then
      (utf8DecodeFuel fuel rest).map (fun cs => Char.ofNat (utf8Val3 b1 b2 b3) :: cs)
    else none) = _
  rw [if_pos he]

theorem utf8DecodeFuel_four (fuel b1 b2 b3 b4 : Nat) (rest : List Nat)
    (ha : ¬ b1 < 0x80) (hb : ¬ b1 < 0xC2) (hc : ¬ b1 < 0xE0) (hd : ¬ b1 < 0xF0)
    (hf : b1 < 0xF5)
    (he : isCont b2 ∧ isCont b3 ∧ isCont b4 ∧ 0x10000 ≤ utf8Val4 b1 b2 b3 b4
        ∧ utf8Val4 b1 b2 b3 b4 < 0x110000) :
    utf8DecodeFuel (fuel + 1) (b1 :: b2 :: b3 :: b4 :: rest) =
      (utf8DecodeFuel fuel rest).map (fun cs => Char.ofNat (utf8Val4 b1 b2 b3 b4) :: cs) := by
  rw [utf8DecodeFuel.eq_3, if_neg ha, if_neg hb, if_neg hc, if_neg hd, if_pos hf]
  show (if isCont b2 ∧ isCont b3 ∧ isCont b4 ∧ 0x10000 ≤ utf8Val4 b1 b2 b3 b4
      ∧ utf8Val4 b1 b2 b3 b4 < 0x110000 then
      (utf8DecodeFuel fuel rest).map (fun cs => Char.ofNat (utf8Val4 b1 b2 b3 b4) :: cs)
    else none) = _
  rw [if_pos he]

theorem utf8DecodeFuel_encodeChar (c : Char) (fuel : Nat) (l : List Nat) :
    utf8DecodeFuel (fuel + 1) (utf8EncodeChar c ++ l) =
      (utf8DecodeFuel fuel l).map (fun cs => c :: cs) := by
  obtain ⟨hv, hs⟩ := char_facts c
  simp only [utf8EncodeChar]
  by_cases h1 : c.toNat < 0x80
  · rw [if_pos h1]
    simp only [List.cons_append, List.nil_append]
    rw [utf8DecodeFuel_one _ _ _ h1, Char.ofNat_toNat]
  · rw [if_neg h1]
    by_cases h2 : c.toNat < 0x800
    · rw [if_pos h2]
      simp only [List.cons_append, List.nil_append]
      rw [utf8DecodeFuel_two _ _ _ _ (by omega) (by omega) (by omega)
        (by constructor <;> omega)]
      have e : utf8Val2 (0xC0 + c.toNat / 64) (0x80 + c.toNat % 64) = c.toNat := by
        simp only [utf8Val2]; omega
      rw [e, Char.ofNat_toNat]
    · rw [if_neg h2]
      by_cases h3 : c.toNat < 0x10000
      · rw [if_pos h3]
        simp only [List.cons_append, List.nil_append]
        have e : utf8Val3 (0xE0 + c.toNat / 4096) (0x80 + c.toNat / 64 % 64)
            (0x80 + c.toNat % 64) = c.toNat := by
          simp only [utf8Val3]; omega
        rw [utf8DecodeFuel_three _ _ _ _ _ (by omega) (by omega) (by omega) (by omega)
          ⟨by constructor <;> omega, by constructor <;> omega, by rw [e]; omega,
            by rw [e]; exact hs⟩]
        rw [e, Char.ofNat_toNat]
      · rw [if_neg h3]
        simp only [List.cons_append, List.nil_append]
        have e : utf8Val4 (0xF0 + c.toNat / 262144) (0x80 + c.toNat / 4096 % 64)
            (0x80 + c.toNat / 64 % 64) (0x80 + c.toNat % 64) = c.toNat := by
          simp only [utf8Val4]; omega
        rw [utf8DecodeFuel_four _ _ _ _ _ _ (by omega) (by omega) (by omega) (by omega)
          (by omega)
          ⟨by constructor <;> omega, by constructor <;> omega, by constructor <;> omega,
            by rw [e]; omega, by rw [e]; exact hv⟩]
        rw [e, Char.ofNat_toNat]

theorem utf8EncodeChar_length_pos (c : Char) : 0 < (utf8EncodeChar c).length := by
  simp only [utf8EncodeChar]
  split
  · simp
  · split
    · simp
    · split <;> simp

theorem utf8Encode_length (s : List Char) : s.length ≤ (utf8Encode s).length := by
  induction s with
  | nil => simp [utf8Encode]
  | cons c cs ih =>
    have hpos := utf8EncodeChar_length_pos c
    simp only [utf8Encode, List.map_cons, List.flatten_cons, List.length_append,
      List.length_cons]
    simp only [utf8Encode] at ih
    omega

theorem utf8DecodeFuel_encode (s : List Char) :
    ∀ fuel, s.length ≤ fuel → utf8DecodeFuel fuel (utf8Encode s) = some s := by
  induction s with
  | nil =>
    intro fuel _
    show utf8DecodeFuel fuel [] = some []
    rw [utf8DecodeFuel.eq_1]
  | cons c cs ih =>
    intro fuel hfuel
    cases fuel with
    | zero => simp at hfuel
    | succ f =>
      show utf8DecodeFuel (f + 1) (utf8EncodeChar c ++ utf8Encode cs) = _
      rw [utf8DecodeFuel_encodeChar, ih f (by simp at hfuel; omega)]
      rfl

theorem utf8_roundtrip (s : List Char) : utf8Decode (utf8Encode s) = some s :=
  utf8DecodeFuel_encode s (utf8Encode s).length (utf8Encode_length s)

theorem xor_cycle_involution (key : List Nat) (i : Nat) (l : List Nat) :
    xor_cycle key i (xor_cycle key i l) = l := by
  induction l generalizing i with
  | nil => rfl
  | cons b rest ih =>
    simp only [xor_cycle]
    rw [Nat.xor_assoc, Nat.xor_self, Nat.xor_zero, ih]

theorem xor_cycle_lt (key : List Nat) (hk : ∀ b ∈ key, b < 256) (i : Nat)
    (l : List Nat) (hl : ∀ b ∈ l, b < 256) : ∀ b ∈ xor_cycle key i l, b < 256 := by
  induction l generalizing i with
  | nil => intro b hb; simp [xor_cycle] at hb
  | cons x rest ih =>
    intro b hb
    simp only [xor_cycle, List.mem_cons] at hb
    rcases hb with hb | hb
    · subst hb
      have hx : x < 256 := hl x (by simp)
      have hkey : key.getD (i % key.length) 0 < 256 := by
        rw [List.getD_eq_getElem?_getD]
        cases h : key[i % key.length]? with
        | none => simp
        | some v =>
          obtain ⟨hlt, heq⟩ := List.getElem?_eq_some.mp h
          have hv : v ∈ key := heq ▸ List.getElem_mem hlt
          simp only [Option.getD_some]
          exact hk v hv
      have h256 : (256 : Nat) = 2 ^ 8 := by norm_num
      rw [h256] at hx hkey ⊢
      exact Nat.xor_lt_two_pow hx hkey
    · exact ih (i + 1) (fun y hy => hl y (List.mem_cons_of_mem _ hy)) b hb

/-- C3: vault crypto round-trip — for every 32-byte key and every plaintext,
`decrypt_credential (encrypt_credential p key) key` succeeds and returns `p`. -/
theorem vault_roundtrip (p : String) (key : List Nat) (hlen : key.length = 32)
    (hbytes : ∀ b ∈ key, b < 256) :
    decrypt_credential (encrypt_credential p key) key = Except.ok p := by
  have henc : ∀ b ∈ xor_cycle key 0 (utf8Encode p.toList), b < 256 :=
    xor_cycle_lt key hbytes 0 _ (utf8Encode_lt p.toList)
  show decrypt_credential
    (String.mk (base64EncodeChunks (xor_cycle key 0 (utf8Encode p.toList)))) key = _
  simp only [decrypt_credential]
  rw [show (String.mk (base64EncodeChunks (xor_cycle key 0 (utf8Encode p.toList)))).toList
      = base64EncodeChunks (xor_cycle key 0 (utf8Encode p.toList)) from rfl]
  rw [base64_roundtrip _ henc]
  show (match utf8Decode (xor_cycle key 0 (xor_cycle key 0 (utf8Encode p.toList))) with
    | some cs => Except.ok (String.mk cs)
    | none => Except.error "Failed to decrypt: invalid utf-8") = Except.ok p
  rw [xor_cycle_involution, utf8_roundtrip]
  rfl

theorem vault_roundtrip_witness :
    decrypt_credential (encrypt_credential "sk-live-abc" (List.replicate 32 171))
      (List.replicate 32 171) = Except.ok "sk-live-abc" :=
  vault_roundtrip "sk-live-abc" (List.replicate 32 171) (by decide) (by decide)
